import Mathlib

/-
Verification of the outline-parsing core of the zain-pptx-generator
repository: `src/outline_parser.py` (`OutlineParser.parse_text`,
`validate_structure`, `split_for_agents`) and the layout heuristic of
`src/ai_planner.py` (`SlidePlanner._fallback_plan`).

Python strings are modelled as `List Char`; Python dicts for slide
records become a structure whose optionally-present keys (`subtitle`,
`content`) are `Option`-valued, `none` meaning the key is absent.
A dictionary read of a possibly-missing key is an `Option` bind, so a
`none` result of the parser models a Python `KeyError`.
-/

abbrev Str := List Char

/-- `String.data` of a literal, for readable concrete inputs. -/
def chars (s : String) : Str := s.data

/-- Characters removed by Python `str.strip()` with no argument
(ASCII whitespace; the parser's inputs contain no other whitespace). -/
def pySpace (c : Char) : Bool :=
  c = ' ' || c = '\t' || c = '\n' || c = '\r' || c = '\x0b' || c = '\x0c'

/-- Python `s.lstrip()` : drop the leading whitespace run. -/
def lstripWs (s : Str) : Str := s.dropWhile pySpace

/-- Python `s.rstrip()` : drop the trailing whitespace run. -/
def rstripWs : Str → Str
  | [] => []
  | c :: t =>
    match rstripWs t with
    | [] => if pySpace c then [] else [c]
    | c' :: t' => c :: c' :: t'

/-- Python `s.strip()` : drop whitespace at both ends. -/
def pyStrip (s : Str) : Str := rstripWs (lstripWs s)

/-- Python `s.lstrip(cs)` : drop the leading run of characters from `cs`. -/
def lstripSet (cs : Str) (s : Str) : Str := s.dropWhile (fun c => cs.contains c)

/-- Python `s.split('\n')`. -/
def splitNl : Str → List Str
  | [] => [[]]
  | c :: rest =>
    if c = '\n' then [] :: splitNl rest
    else
      match splitNl rest with
      | [] => [[c]]
      | l :: ls => (c :: l) :: ls

/-- Python `s.startswith(p)` (`startsWithL s p`). -/
def startsWithL : Str → Str → Bool
  | _, [] => true
  | [], _ :: _ => false
  | c :: s, p :: ps => c = p && startsWithL s ps

/-- Python `p in s` : `p` occurs as a contiguous substring of `s`. -/
def containsSub (pat : Str) : Str → Bool
  | [] => startsWithL [] pat
  | c :: rest => startsWithL (c :: rest) pat || containsSub pat rest

/-- Python `s.replace(pat, '')` : remove every occurrence of `pat`,
left to right, non-overlapping. -/
def removeAll (pat : Str) : Str → Str
  | [] => []
  | c :: rest =>
    if startsWithL (c :: rest) pat && !pat.isEmpty then
      removeAll pat (rest.drop (pat.length - 1))
    else
      c :: removeAll pat rest
  termination_by s => s.length
  decreasing_by
  · simp only [List.length_drop, List.length_cons]; omega
  · simp only [List.length_cons]; omega

/-- Python `' '.join(items)`. -/
def joinSpace : List Str → Str
  | [] => []
  | [x] => x
  | x :: y :: rest => x ++ ' ' :: joinSpace (y :: rest)

/-- The `'type'` values a slide dict produced by the parser can carry. -/
inductive SKind
  | title
  | sect
  | content
  deriving DecidableEq, Repr

/-- One slide dict. `subtitle`/`content` are `none` when the Python dict
has no such key (section slides carry no `'subtitle'`; the slide that
`validate_structure` prepends carries no `'content'`). -/
structure Slide where
  type : SKind
  title : Str
  subtitle : Option Str
  content : Option (List Str)
  deriving DecidableEq, Repr

/-- The default content slide created when a bullet line arrives with no
current slide: `{'type': 'content', 'title': 'Content', 'content': []}`. -/
def defaultContent : Slide :=
  { type := SKind.content, title := chars "Content", subtitle := none,
    content := some [] }

/-- The mojibake byte-sequence literal `'â€¢'` that appears in the source
(the UTF-8 bytes of `•` decoded as three Latin-1 characters). -/
def mojibake : Str := ['â', '€', '¢']

/-- The character set of the source's `line.lstrip('-â€¢')`. -/
def bulletSet : Str := '-' :: mojibake

/-- Appending the current slide (if any) to the finished list
(`self.slides.append(current_slide)`). -/
def pushCur (slides : List Slide) (cur : Option Slide) : List Slide :=
  match cur with
  | none => slides
  | some s => slides ++ [s]

/-- The parser state while looping: finished slides and the current slide. -/
abbrev PState := List Slide × Option Slide

/-- One iteration of the `for line in lines` loop of
`OutlineParser.parse_text`. `none` models a Python `KeyError` on a
dictionary read of a missing key. -/
def processLine (st : PState) (rawLine : Str) : Option PState :=
  let slides := st.1
  let cur := st.2
  let line := pyStrip rawLine
  if line.isEmpty then
    some (slides, cur)
  else if startsWithL line (chars "# ") || startsWithL line (chars "## ") then
    some (pushCur slides cur,
      some { type := SKind.title, title := pyStrip (lstripSet ['#'] line),
             subtitle := some [], content := some [] })
  else if startsWithL line (chars "---") ||
      (startsWithL line (chars "## ") &&
        containsSub (chars "section") (line.map Char.toLower)) then
    some (pushCur slides cur,
      some { type := SKind.sect,
             title := pyStrip (removeAll (chars "Section:")
               (pyStrip (lstripSet ['#'] line))),
             subtitle := none, content := some [] })
  else if startsWithL line (chars "-") || startsWithL line mojibake then
    let cur' := match cur with
      | none => defaultContent
      | some s => s
    let bullet := pyStrip (lstripSet bulletSet line)
    if cur'.type = SKind.content then
      match cur'.content with
      | none => none
      | some items => some (slides, some { cur' with content := some (items ++ [bullet]) })
    else
      some (slides, some { cur' with type := SKind.content, content := some [bullet] })
  else
    match cur with
    | none => some (slides, cur)
    | some s =>
      if s.type = SKind.title then
        match s.subtitle with
        | none => none
        | some sub =>
          if sub.isEmpty then some (slides, some { s with subtitle := some line })
          else some (slides, some s)
      else if s.type = SKind.content then
        match s.content with
        | none => none
        | some items => some (slides, some { s with content := some (items ++ [line]) })
      else some (slides, some s)

/-- The whole `for` loop. -/
def runLines : List Str → PState → Option PState
  | [], st => some st
  | l :: ls, st =>
    match processLine st l with
    | none => none
    | some st' => runLines ls st'

/-- `OutlineParser.parse_text`. `slides` is the `self.slides` the instance
holds on entry (`[]` for a fresh parser); the method appends the newly
parsed records to it and returns the whole accumulated list. -/
def parse_text (slides : List Slide) (text : Str) : Option (List Slide) :=
  match runLines (splitNl (pyStrip text)) (slides, none) with
  | none => none
  | some (s, cur) => some (pushCur s cur)

/-- The record `validate_structure` prepends when the first slide is not a
title (it carries no `'content'` key). -/
def defaultTitleSlide : Slide :=
  { type := SKind.title, title := chars "Presentation", subtitle := some [],
    content := none }

/-- `OutlineParser.validate_structure`: the returned Bool together with the
`self.slides` list after the call. -/
def validate_structure (slides : List Slide) : Bool × List Slide :=
  match slides with
  | [] => (false, [])
  | s :: rest =>
    if s.type ≠ SKind.title then (true, defaultTitleSlide :: s :: rest)
    else (true, s :: rest)

/-- One batch of `OutlineParser.split_for_agents`. -/
structure Batch where
  batch_id : Nat
  start_index : Nat
  slides : List Slide
  deriving DecidableEq, Repr

/-- The `for i in range(0, len(self.slides), batch_size)` loop. For
`bs ≥ 1` each step takes `bs` slides and advances `i` by `bs`, exactly as
the Python slice loop does (Python raises on `batch_size = 0`). -/
def splitGo (bs : Nat) : List Slide → Nat → List Batch
  | [], _ => []
  | s :: rest, i =>
    { batch_id := i / bs, start_index := i, slides := (s :: rest).take bs } ::
      splitGo bs (rest.drop (bs - 1)) (i + bs)
  termination_by l _ => l.length
  decreasing_by simp only [List.length_drop, List.length_cons]; omega

/-- `OutlineParser.split_for_agents`. -/
def split_for_agents (slides : List Slide) (batch_size : Nat) : List Batch :=
  splitGo batch_size slides 0

/-- The layout tags `SlidePlanner._fallback_plan` can assign to a content
slide. -/
inductive Layout
  | bullets
  | two_column
  | big_number
  deriving DecidableEq, Repr

/-- The layout choice of `SlidePlanner._fallback_plan` for a content slide,
as a function of its `'content'` list, in the source's order: first the
digit/length-≤-3 check choosing `big_number` or `bullets`, then the
`> 5` check overriding with `two_column`. -/
def chooseLayout (content : List Str) : Layout :=
  let content_str := joinSpace content
  let base :=
    if content_str.any Char.isDigit && content.length ≤ 3 then
      if content_str.contains '%' || content_str.contains '$' ||
          content_str.contains 'M' || content_str.contains 'K' then
        Layout.big_number
      else
        Layout.bullets
    else
      Layout.bullets
  if content.length > 5 then Layout.two_column else base

/-- The layout rule written the way the spec orders it: first-match-wins
with the `two_column` count check first. Stated from the spec's words, to
be compared with `chooseLayout` (which follows the source's order). -/
def chooseLayoutSpec (content : List Str) : Layout :=
  let content_str := joinSpace content
  if content.length > 5 then Layout.two_column
  else if content.length ≤ 3 && content_str.any Char.isDigit &&
      (content_str.contains '%' || content_str.contains '$' ||
        content_str.contains 'M' || content_str.contains 'K') then
    Layout.big_number
  else
    Layout.bullets

/-- Re-serialization of a bullet list: one `"- item"` line per item,
joined by newlines. -/
def serializeBullets : List Str → Str
  | [] => []
  | [i] => chars "- " ++ i
  | i :: rest => (chars "- " ++ i) ++ '\n' :: serializeBullets rest

/-- `serializeBullets` with the trailing whitespace of its last line
removed; this is what `pyStrip` leaves of a serialized bullet list. -/
def serializeStripped : List Str → Str
  | [] => []
  | [i] => rstripWs (chars "- " ++ i)
  | i :: rest => (chars "- " ++ i) ++ '\n' :: serializeStripped rest

/-- A string with no surrounding whitespace (its own `pyStrip` fixes it). -/
def IsStripped (l : Str) : Prop :=
  (∀ c, l.head? = some c → pySpace c = false) ∧
  (∀ c, l.getLast? = some c → pySpace c = false)

/-- A bullet item as stored by the parser: stripped and newline-free. -/
def GoodItem (i : Str) : Prop := IsStripped i ∧ '\n' ∉ i

/-- Every content slide the parser builds has a nonempty `'content'` list
of good items. -/
def GoodSlide (s : Slide) : Prop :=
  s.type = SKind.content →
    ∃ items, s.content = some items ∧ items ≠ [] ∧ ∀ i ∈ items, GoodItem i

/-- `GoodSlide` for all finished slides and for the current slide. -/
def GoodState (st : PState) : Prop :=
  (∀ s ∈ st.1, GoodSlide s) ∧ (∀ s, st.2 = some s → GoodSlide s)

/-- The dictionary keys the loop body may read are present: a content
slide has a `'content'` key and a title slide a `'subtitle'` key. -/
def SafeSlide (s : Slide) : Prop :=
  (s.type = SKind.content → s.content ≠ none) ∧
  (s.type = SKind.title → s.subtitle ≠ none)

/-- `SafeSlide` for the current slide (the only slide the loop reads). -/
def SafeState (st : PState) : Prop := ∀ s, st.2 = some s → SafeSlide s

/-- The concrete end-to-end input of the spec's scenario. -/
def c1Input : Str :=
  chars "# Q1 Review\nGrowth story\n\n- Revenue up 15%\n- Costs down 8%"

/-! ### C1: end-to-end scenario -/

/-- C1, counterexample: on the scenario input the parser returns a single
record, not the two records the claim asserts (the title record is coerced
into the content record by the bullet lines). -/
theorem c1_single_record :
    (parse_text [] c1Input).map List.length = some 1 := by decide

/-- C1, amended: on the scenario input the parser returns exactly one
record, a Content record titled "Q1 Review" with subtitle "Growth story"
and the two bullet items in order, and `chooseLayout` on that record's
bullet list returns `big_number`. -/
theorem c1_end_to_end :
    parse_text [] c1Input =
      some [{ type := SKind.content, title := chars "Q1 Review",
              subtitle := some (chars "Growth story"),
              content := some [chars "Revenue up 15%", chars "Costs down 8%"] }] ∧
    chooseLayout [chars "Revenue up 15%", chars "Costs down 8%"] =
      Layout.big_number := by
  exact ⟨by decide, by decide⟩

/-! ### C2: heading lines containing "section" -/

/-- C2: a heading line that contains the word "section" is parsed as a
Title record that keeps the `"Section:"` label, not as a Section record:
the `'## '` test of the title branch fires first, so the section test on
heading lines is unreachable (the code's own comment says `## Section
Name` is a section-divider pattern). -/
theorem c2_section_heading_becomes_title :
    parse_text [] (chars "## Section: Market Analysis") =
      some [{ type := SKind.title, title := chars "Section: Market Analysis",
              subtitle := some [], content := some [] }] := by decide

/-! ### C5: validate_structure -/

/-- C5: `validate_structure` returns false exactly on the empty list and
mutates nothing there; on a list whose head is not a title it prepends the
default `"Presentation"` title record and alters nothing else, returning
true; on a list whose head is a title it is a no-op returning true. -/
theorem validate_structure_cases (slides : List Slide) :
    (slides = [] → validate_structure slides = (false, [])) ∧
    (∀ s rest, slides = s :: rest → s.type ≠ SKind.title →
      validate_structure slides =
        (true, { type := SKind.title, title := chars "Presentation",
                 subtitle := some [], content := none } :: s :: rest)) ∧
    (∀ s rest, slides = s :: rest → s.type = SKind.title →
      validate_structure slides = (true, slides)) ∧
    ((validate_structure slides).1 = false → slides = []) := by
  refine ⟨?_, ?_, ?_, ?_⟩
  · rintro rfl; rfl
  · rintro s rest rfl h
    simp [validate_structure, h, defaultTitleSlide]
  · rintro s rest rfl h
    simp [validate_structure, h]
  · intro h
    cases slides with
    | nil => rfl
    | cons s rest =>
      simp only [validate_structure] at h
      split at h <;> simp at h

/-- C5 witness: a sequence starting with a section record gets the default
title prepended. -/
theorem validate_structure_cases_witness :
    validate_structure
        [{ type := SKind.sect, title := chars "S", subtitle := none,
           content := some [] }] =
      (true, { type := SKind.title, title := chars "Presentation",
               subtitle := some [], content := none } ::
        [{ type := SKind.sect, title := chars "S", subtitle := none,
           content := some [] }]) :=
  (validate_structure_cases _).2.1
    { type := SKind.sect, title := chars "S", subtitle := none,
      content := some [] } [] rfl (by decide)

/-! ### C6: layout rule order -/

/-- C6: `chooseLayout` agrees with the spec's first-match-wins rule order
(count > 5 gives `two_column`; else count ≤ 3 with a digit and one of
`%`, `$`, `M`, `K` gives `big_number`; else `bullets`), and any list of
six items yields `two_column` regardless of content. Determinism is
immediate since `chooseLayout` is a function of the bullet list alone. -/
theorem chooseLayout_rule_order (content : List Str) :
    chooseLayout content = chooseLayoutSpec content ∧
    (content.length = 6 → chooseLayout content = Layout.two_column) := by
  constructor
  · unfold chooseLayout chooseLayoutSpec
    by_cases h5 : content.length > 5
    · simp [h5]
    · cases h1 : (joinSpace content).any Char.isDigit <;>
      cases h2 : decide (content.length ≤ 3) <;>
      cases h3 : ((joinSpace content).contains '%' ||
          (joinSpace content).contains '$' ||
          (joinSpace content).contains 'M' ||
          (joinSpace content).contains 'K') <;>
        simp_all
  · intro h6
    unfold chooseLayout
    simp [h6]

/-- C6 witness: a six-item list with no digits still maps to
`two_column`. -/
theorem chooseLayout_rule_order_witness :
    chooseLayout [chars "a", chars "b", chars "c", chars "d", chars "e",
      chars "f"] = Layout.two_column :=
  (chooseLayout_rule_order
    [chars "a", chars "b", chars "c", chars "d", chars "e", chars "f"]).2
    (by decide)

/-! ### C3, C4: the bullet branch -/

/-- A line classified as a bullet is nonempty. -/
theorem bullet_line_ne_empty {line : Str}
    (h : startsWithL line (chars "-") = true ∨
      startsWithL line mojibake = true) :
    line.isEmpty = false := by
  cases line with
  | nil => rcases h with h | h <;> exact absurd h (by decide)
  | cons a t => rfl

/-- C3: a bullet line arriving while the current record is a Title or a
Section coerces that record in place into a Content record (its kind is
overwritten, its other fields kept), the stripped bullet text becomes its
single first item, and the finished-slides list is untouched (no new
record is created). -/
theorem bullet_coerces_title_or_section
    (slides : List Slide) (s : Slide) (raw : Str)
    (hk : s.type = SKind.title ∨ s.type = SKind.sect)
    (h1 : startsWithL (pyStrip raw) (chars "# ") = false)
    (h2 : startsWithL (pyStrip raw) (chars "## ") = false)
    (h3 : startsWithL (pyStrip raw) (chars "---") = false)
    (h4 : startsWithL (pyStrip raw) (chars "-") = true ∨
      startsWithL (pyStrip raw) mojibake = true) :
    processLine (slides, some s) raw =
      some (slides, some
        { s with
          type := SKind.content,
          content := some [pyStrip (lstripSet bulletSet (pyStrip raw))] }) := by
  have hne := bullet_line_ne_empty h4
  have hty : ¬ s.type = SKind.content := by
    rcases hk with h | h <;> simp [h]
  unfold processLine
  rcases h4 with h4 | h4 <;> simp [hne, h1, h2, h3, h4, hty]

/-- C3 witness: a hyphen bullet after a `# Launch` heading coerces the
title record. -/
theorem bullet_coerces_title_or_section_witness :
    processLine
        ([], some { type := SKind.title, title := chars "Launch",
                    subtitle := some [], content := some [] })
        (chars "- hi") =
      some ([], some
        { ({ type := SKind.title, title := chars "Launch",
             subtitle := some [], content := some [] } : Slide) with
          type := SKind.content,
          content := some [pyStrip (lstripSet bulletSet (pyStrip (chars "- hi")))] }) :=
  bullet_coerces_title_or_section []
    { type := SKind.title, title := chars "Launch", subtitle := some [],
      content := some [] }
    (chars "- hi") (Or.inl rfl) (by decide) (by decide) (by decide)
    (Or.inl (by decide))

/-- C4, counterexample: a line starting with the plain Unicode bullet
glyph `•` is not recognized as a bullet: on a fresh parser the line is
dropped entirely and no record is produced. -/
theorem plain_bullet_glyph_not_recognized :
    parse_text [] (chars "• Hello") = some [] := by decide

/-- C4, amended: the hyphen marker and the mojibake sequence `â€¢` are the
recognized bullet markers (the plain glyph `•` is not): a line starting
with either, read while the current record is a Content record, is
appended to its items with the marker stripped. -/
theorem bullet_markers_recognized
    (slides : List Slide) (s : Slide) (items : List Str) (raw : Str)
    (hty : s.type = SKind.content) (hc : s.content = some items)
    (h1 : startsWithL (pyStrip raw) (chars "# ") = false)
    (h2 : startsWithL (pyStrip raw) (chars "## ") = false)
    (h3 : startsWithL (pyStrip raw) (chars "---") = false)
    (h4 : startsWithL (pyStrip raw) (chars "-") = true ∨
      startsWithL (pyStrip raw) mojibake = true) :
    processLine (slides, some s) raw =
      some (slides, some
        { s with
          content := some (items ++ [pyStrip (lstripSet bulletSet (pyStrip raw))]) }) := by
  have hne := bullet_line_ne_empty h4
  unfold processLine
  rcases h4 with h4 | h4 <;> simp [hne, h1, h2, h3, h4, hty, hc]

/-- C4 witness: a mojibake-encoded bullet line appended to a content
record. -/
theorem bullet_markers_recognized_witness :
    processLine
        ([], some { type := SKind.content, title := chars "Content",
                    subtitle := none, content := some [chars "a"] })
        (chars "â€¢ Hello") =
      some ([], some
        { ({ type := SKind.content, title := chars "Content",
             subtitle := none, content := some [chars "a"] } : Slide) with
          content := some ([chars "a"] ++
            [pyStrip (lstripSet bulletSet (pyStrip (chars "â€¢ Hello")))]) }) :=
  bullet_markers_recognized []
    { type := SKind.content, title := chars "Content", subtitle := none,
      content := some [chars "a"] }
    [chars "a"] (chars "â€¢ Hello") rfl rfl (by decide) (by decide)
    (by decide) (Or.inr (by decide))

/-! ### C7: split_for_agents partitions -/

theorem splitGo_nil (bs i : Nat) : splitGo bs [] i = [] := by
  rw [splitGo]

theorem splitGo_cons (bs : Nat) (s : Slide) (rest : List Slide) (i : Nat) :
    splitGo bs (s :: rest) i =
      { batch_id := i / bs, start_index := i,
        slides := (s :: rest).take bs } ::
        splitGo bs (rest.drop (bs - 1)) (i + bs) := by
  rw [splitGo]

theorem splitGo_flatten (m : Nat) :
    ∀ (n : Nat) (l : List Slide), l.length ≤ n → ∀ i : Nat,
      ((splitGo (m + 1) l i).map Batch.slides).flatten = l := by
  intro n
  induction n with
  | zero =>
    intro l hl i
    have hnil : l = [] := List.length_eq_zero.mp (Nat.le_zero.mp hl)
    subst hnil
    simp [splitGo_nil]
  | succ n ih =>
    intro l hl i
    cases l with
    | nil => simp [splitGo_nil]
    | cons s rest =>
      rw [splitGo_cons]
      simp only [List.map_cons, List.flatten_cons]
      rw [ih (rest.drop ((m + 1) - 1))
        (by simp only [List.length_drop]; simp at hl; omega) (i + (m + 1))]
      simp only [Nat.add_sub_cancel, List.take_succ_cons]
      rw [List.cons_append, List.take_append_drop]

theorem splitGo_sizes (m : Nat) :
    ∀ (n : Nat) (l : List Slide), l.length ≤ n → ∀ (i j : Nat) (b : Batch),
      (splitGo (m + 1) l i).get? j = some b →
      j + 1 < (splitGo (m + 1) l i).length →
      b.slides.length = m + 1 := by
  intro n
  induction n with
  | zero =>
    intro l hl i j b hb hlt
    have hnil : l = [] := List.length_eq_zero.mp (Nat.le_zero.mp hl)
    subst hnil
    rw [splitGo_nil] at hb
    cases hb
  | succ n ih =>
    intro l hl i j b hb hlt
    cases l with
    | nil =>
      rw [splitGo_nil] at hb
      cases hb
    | cons s rest =>
      rw [splitGo_cons] at hb hlt
      cases hd : rest.drop ((m + 1) - 1) with
      | nil =>
        rw [hd, splitGo_nil] at hb hlt
        cases j with
        | zero => simp at hlt
        | succ j => rw [List.get?_cons_succ] at hb; cases hb
      | cons x xs =>
        have hxlen : (x :: xs).length ≤ n := by
          have hlen := congrArg List.length hd
          simp only [List.length_drop, List.length_cons] at hlen hl ⊢
          omega
        have hrlen : m < rest.length := by
          by_contra hcon
          rw [List.drop_eq_nil_of_le (by simp; omega)] at hd
          cases hd
        cases j with
        | zero =>
          rw [List.get?_cons_zero] at hb
          cases hb
          simp only [List.take_succ_cons, List.length_cons, List.length_take]
          omega
        | succ j =>
          rw [hd] at hb hlt
          rw [List.get?_cons_succ] at hb
          simp only [List.length_cons] at hlt
          exact ih (x :: xs) hxlen (i + (m + 1)) j b hb (by omega)

theorem splitGo_idx (m : Nat) :
    ∀ (n : Nat) (l : List Slide), l.length ≤ n → ∀ (k j : Nat) (b : Batch),
      (splitGo (m + 1) l (k * (m + 1))).get? j = some b →
      b.batch_id = k + j ∧ b.start_index = (k + j) * (m + 1) := by
  intro n
  induction n with
  | zero =>
    intro l hl k j b hb
    have hnil : l = [] := List.length_eq_zero.mp (Nat.le_zero.mp hl)
    subst hnil
    rw [splitGo_nil] at hb
    cases hb
  | succ n ih =>
    intro l hl k j b hb
    cases l with
    | nil =>
      rw [splitGo_nil] at hb
      cases hb
    | cons s rest =>
      rw [splitGo_cons] at hb
      cases j with
      | zero =>
        rw [List.get?_cons_zero] at hb
        cases hb
        refine ⟨?_, by simp⟩
        simp [Nat.mul_div_cancel _ (Nat.succ_pos m)]
      | succ j =>
        rw [List.get?_cons_succ] at hb
        have hstep : k * (m + 1) + (m + 1) = (k + 1) * (m + 1) := by ring
        rw [hstep] at hb
        have hres := ih (rest.drop ((m + 1) - 1))
          (by simp only [List.length_drop]; simp at hl; omega) (k + 1) j b hb
        exact ⟨by rw [hres.1]; omega, by rw [hres.2]; ring_nf⟩

/-- C7: for `batchSize ≥ 1`, `split_for_agents` partitions the slide list
into contiguous batches: the batches' slides concatenated in order give
back the original list, every batch except possibly the last has exactly
`batchSize` slides, and the `j`-th batch carries `batch_id = j` and
`start_index = j * batchSize` (the index of its first slide). -/
theorem split_for_agents_partitions (slides : List Slide) (batchSize : Nat)
    (hbs : 1 ≤ batchSize) :
    ((split_for_agents slides batchSize).map Batch.slides).flatten = slides ∧
    (∀ (j : Nat) (b : Batch),
      (split_for_agents slides batchSize).get? j = some b →
      j + 1 < (split_for_agents slides batchSize).length →
      b.slides.length = batchSize) ∧
    (∀ (j : Nat) (b : Batch),
      (split_for_agents slides batchSize).get? j = some b →
      b.batch_id = j ∧ b.start_index = j * batchSize) := by
  cases batchSize with
  | zero => omega
  | succ m =>
    unfold split_for_agents
    refine ⟨splitGo_flatten m slides.length slides le_rfl 0,
      fun j b hb hlt => splitGo_sizes m slides.length slides le_rfl 0 j b hb hlt,
      ?_⟩
    intro j b hb
    have h0 : (0 : Nat) = 0 * (m + 1) := by ring
    rw [h0] at hb
    have hres := splitGo_idx m slides.length slides le_rfl 0 j b hb
    exact ⟨by rw [hres.1]; omega, by rw [hres.2]; ring_nf⟩

/-- C7 witness: four slides split with batch size 3 concatenate back. -/
theorem split_for_agents_partitions_witness :
    ((split_for_agents
        [defaultContent, defaultContent, defaultContent, defaultContent]
        3).map Batch.slides).flatten =
      [defaultContent, defaultContent, defaultContent, defaultContent] :=
  (split_for_agents_partitions
    [defaultContent, defaultContent, defaultContent, defaultContent] 3
    (by decide)).1

/-! ### C9: the parser never raises -/

theorem processLine_total (slides : List Slide) (cur : Option Slide)
    (raw : Str) (h : ∀ s, cur = some s → SafeSlide s) :
    ∃ st', processLine (slides, cur) raw = some st' ∧
      ∀ s, st'.2 = some s → SafeSlide s := by
  by_cases c1 : (pyStrip raw).isEmpty = true
  · exact ⟨(slides, cur), by simp [processLine, c1], h⟩
  · by_cases c2 : (startsWithL (pyStrip raw) (chars "# ") ||
        startsWithL (pyStrip raw) (chars "## ")) = true
    · refine ⟨(pushCur slides cur,
        some { type := SKind.title,
               title := pyStrip (lstripSet ['#'] (pyStrip raw)),
               subtitle := some [], content := some [] }),
        by simp [processLine, c1, c2], ?_⟩
      intro s hs
      cases hs
      simp [SafeSlide]
    · by_cases c3 : (startsWithL (pyStrip raw) (chars "---") ||
          (startsWithL (pyStrip raw) (chars "## ") &&
            containsSub (chars "section")
              ((pyStrip raw).map Char.toLower))) = true
      · refine ⟨(pushCur slides cur,
          some { type := SKind.sect,
                 title := pyStrip (removeAll (chars "Section:")
                   (pyStrip (lstripSet ['#'] (pyStrip raw)))),
                 subtitle := none, content := some [] }),
          by simp [processLine, c1, c2, c3], ?_⟩
        intro s hs
        cases hs
        simp [SafeSlide]
      · by_cases c4 : (startsWithL (pyStrip raw) (chars "-") ||
            startsWithL (pyStrip raw) mojibake) = true
        · cases cur with
          | none =>
            refine ⟨(slides, some
              { defaultContent with
                content := some ([] ++
                  [pyStrip (lstripSet bulletSet (pyStrip raw))]) }),
              by simp [processLine, c1, c2, c3, c4, defaultContent], ?_⟩
            intro s hs
            cases hs
            simp [SafeSlide, defaultContent]
          | some s =>
            by_cases hty : s.type = SKind.content
            · obtain ⟨items, hits⟩ : ∃ items, s.content = some items := by
                have hnn := (h s rfl).1 hty
                cases hc : s.content with
                | none => exact absurd hc hnn
                | some items => exact ⟨items, rfl⟩
              refine ⟨(slides, some
                { s with
                  content := some (items ++
                    [pyStrip (lstripSet bulletSet (pyStrip raw))]) }),
                by simp [processLine, c1, c2, c3, c4, hty, hits], ?_⟩
              intro s' hs'
              cases hs'
              exact ⟨fun _ => by simp, fun ht => (h s rfl).2 ht⟩
            · refine ⟨(slides, some
                { s with
                  type := SKind.content,
                  content := some [pyStrip (lstripSet bulletSet (pyStrip raw))] }),
                by simp [processLine, c1, c2, c3, c4, hty], ?_⟩
              intro s' hs'
              cases hs'
              exact ⟨fun _ => by simp, fun ht => absurd ht (by simp)⟩
        · cases cur with
          | none => exact ⟨(slides, none),
              by simp [processLine, c1, c2, c3, c4], by intro s hs; cases hs⟩
          | some s =>
            by_cases hty : s.type = SKind.title
            · obtain ⟨sub, hsub⟩ : ∃ sub, s.subtitle = some sub := by
                have hnn := (h s rfl).2 hty
                cases hc : s.subtitle with
                | none => exact absurd hc hnn
                | some sub => exact ⟨sub, rfl⟩
              by_cases hemp : sub.isEmpty = true
              · refine ⟨(slides, some
                  { s with subtitle := some (pyStrip raw) }),
                  by simp [processLine, c1, c2, c3, c4, hty, hsub, hemp], ?_⟩
                intro s' hs'
                cases hs'
                exact ⟨fun hc => (h s rfl).1 hc, fun _ => by simp⟩
              · exact ⟨(slides, some s),
                  by simp [processLine, c1, c2, c3, c4, hty, hsub, hemp],
                  by intro s' hs'; cases hs'; exact h s rfl⟩
            · by_cases htc : s.type = SKind.content
              · obtain ⟨items, hits⟩ : ∃ items, s.content = some items := by
                  have hnn := (h s rfl).1 htc
                  cases hc : s.content with
                  | none => exact absurd hc hnn
                  | some items => exact ⟨items, rfl⟩
                refine ⟨(slides, some
                  { s with
                    content := some (items ++ [pyStrip raw]) }),
                  by simp [processLine, c1, c2, c3, c4, hty, htc, hits], ?_⟩
                intro s' hs'
                cases hs'
                exact ⟨fun _ => by simp, fun ht => absurd ht hty⟩
              · exact ⟨(slides, some s),
                  by simp [processLine, c1, c2, c3, c4, hty, htc],
                  by intro s' hs'; cases hs'; exact h s rfl⟩

theorem runLines_total (lines : List Str) :
    ∀ st : PState, (∀ s, st.2 = some s → SafeSlide s) →
      ∃ st', runLines lines st = some st' ∧
        ∀ s, st'.2 = some s → SafeSlide s := by
  induction lines with
  | nil => exact fun st h => ⟨st, rfl, h⟩
  | cons l ls ih =>
    intro st h
    obtain ⟨st1, h1, hsafe1⟩ := processLine_total st.1 st.2 l h
    obtain ⟨st2, h2, hsafe2⟩ := ih st1 hsafe1
    exact ⟨st2, by simp [runLines, h1, h2], hsafe2⟩

/-- Totality of `parse_text` on a fresh parser, shared by C9 and C10. -/
theorem parse_text_total_aux (text : Str) :
    ∃ out, parse_text [] text = some out := by
  obtain ⟨st', h1, _⟩ := runLines_total (splitNl (pyStrip text)) ([], none)
    (by intro s hs; cases hs)
  exact ⟨pushCur st'.1 st'.2, by simp [parse_text, h1]⟩

/-- C9: `parse_text` is total on every input string of a fresh parser: it
never signals a `KeyError` (the only runtime failure the loop body could
raise); a list of slide records is always returned. -/
theorem parse_text_never_raises (text : Str) :
    ∃ out, parse_text [] text = some out :=
  parse_text_total_aux text

/-! ### C10: parse accumulates across calls -/

theorem pushCur_append (acc slides : List Slide) (cur : Option Slide) :
    pushCur (acc ++ slides) cur = acc ++ pushCur slides cur := by
  cases cur <;> simp [pushCur]

theorem processLine_frame (acc slides : List Slide) (cur : Option Slide)
    (raw : Str) :
    processLine (acc ++ slides, cur) raw =
      (processLine (slides, cur) raw).map (fun st => (acc ++ st.1, st.2)) := by
  by_cases c1 : (pyStrip raw).isEmpty = true
  · simp [processLine, c1]
  · by_cases c2 : (startsWithL (pyStrip raw) (chars "# ") ||
        startsWithL (pyStrip raw) (chars "## ")) = true
    · simp [processLine, c1, c2, pushCur_append]
    · by_cases c3 : (startsWithL (pyStrip raw) (chars "---") ||
          (startsWithL (pyStrip raw) (chars "## ") &&
            containsSub (chars "section")
              ((pyStrip raw).map Char.toLower))) = true
      · simp [processLine, c1, c2, c3, pushCur_append]
      · by_cases c4 : (startsWithL (pyStrip raw) (chars "-") ||
            startsWithL (pyStrip raw) mojibake) = true
        · cases cur with
          | none => simp [processLine, c1, c2, c3, c4, defaultContent]
          | some s =>
            by_cases hty : s.type = SKind.content
            · cases hits : s.content with
              | none => simp [processLine, c1, c2, c3, c4, hty, hits]
              | some items => simp [processLine, c1, c2, c3, c4, hty, hits]
            · simp [processLine, c1, c2, c3, c4, hty]
        · cases cur with
          | none => simp [processLine, c1, c2, c3, c4]
          | some s =>
            by_cases hty : s.type = SKind.title
            · cases hsub : s.subtitle with
              | none => simp [processLine, c1, c2, c3, c4, hty, hsub]
              | some sub =>
                by_cases hemp : sub.isEmpty = true
                · simp [processLine, c1, c2, c3, c4, hty, hsub, hemp]
                · simp [processLine, c1, c2, c3, c4, hty, hsub, hemp]
            · by_cases htc : s.type = SKind.content
              · cases hits : s.content with
                | none => simp [processLine, c1, c2, c3, c4, hty, htc, hits]
                | some items => simp [processLine, c1, c2, c3, c4, hty, htc, hits]
              · simp [processLine, c1, c2, c3, c4, hty, htc]

theorem runLines_frame (lines : List Str) :
    ∀ (acc slides : List Slide) (cur : Option Slide),
      runLines lines (acc ++ slides, cur) =
        (runLines lines (slides, cur)).map (fun st => (acc ++ st.1, st.2)) := by
  induction lines with
  | nil => intro acc slides cur; rfl
  | cons l ls ih =>
    intro acc slides cur
    simp only [runLines]
    rw [processLine_frame]
    cases hp : processLine (slides, cur) l with
    | none => rfl
    | some st1 => exact ih acc st1.1 st1.2

/-- C10: `parse_text` accumulates state across calls on one parser
instance: parsing `t1` on a fresh parser and then `t2` on the same
instance returns the records of `t1` followed by the records of `t2`
(so the per-call contract holds only for a fresh parser). -/
theorem parse_text_accumulates (t1 t2 : Str) :
    ∃ r1 r2, parse_text [] t1 = some r1 ∧ parse_text [] t2 = some r2 ∧
      parse_text r1 t2 = some (r1 ++ r2) := by
  obtain ⟨r1, h1⟩ := parse_text_total_aux t1
  obtain ⟨r2, h2⟩ := parse_text_total_aux t2
  refine ⟨r1, r2, h1, h2, ?_⟩
  have hframe := runLines_frame (splitNl (pyStrip t2)) r1 [] none
  simp only [List.append_nil] at hframe
  unfold parse_text at h2 ⊢
  cases hr : runLines (splitNl (pyStrip t2)) ([], none) with
  | none => rw [hr] at h2; cases h2
  | some st =>
    rw [hr] at h2
    obtain ⟨s2, c2⟩ := st
    have hr2 : r2 = pushCur s2 c2 := by
      cases h2
      rfl
    rw [hframe, hr]
    show some (pushCur (r1 ++ s2) c2) = some (r1 ++ r2)
    rw [hr2, pushCur_append]

/-! ### C8: roundtrip — lemmas about strip and split -/

theorem mem_of_mem_dropWhile {p : Char → Bool} {c : Char} :
    ∀ {l : Str}, c ∈ l.dropWhile p → c ∈ l := by
  intro l
  induction l with
  | nil => exact fun h => h
  | cons a t ih =>
    intro h
    rw [List.dropWhile_cons] at h
    split at h
    · exact List.mem_cons_of_mem a (ih h)
    · exact h

theorem rstripWs_cons (c : Char) (t : Str) :
    rstripWs (c :: t) =
      if rstripWs t = [] then (if pySpace c then [] else [c])
      else c :: rstripWs t := by
  rw [rstripWs]
  cases hr : rstripWs t with
  | nil => simp
  | cons b t' => simp

theorem mem_of_mem_rstripWs {c : Char} : ∀ {l : Str}, c ∈ rstripWs l → c ∈ l := by
  intro l
  induction l with
  | nil => exact fun h => h
  | cons a t ih =>
    intro h
    rw [rstripWs_cons] at h
    split at h
    · split at h
      · cases h
      · rw [List.mem_singleton] at h
        exact h ▸ List.mem_cons_self a t
    · rcases List.mem_cons.mp h with rfl | h2
      · exact List.mem_cons_self ..
      · exact List.mem_cons_of_mem a (ih h2)

theorem mem_of_mem_pyStrip {c : Char} {l : Str} (h : c ∈ pyStrip l) : c ∈ l :=
  mem_of_mem_dropWhile (mem_of_mem_rstripWs h)

theorem lstripWs_head_not_space : ∀ {l : Str} {c : Char},
    (lstripWs l).head? = some c → pySpace c = false := by
  intro l
  induction l with
  | nil => intro c h; cases h
  | cons a t ih =>
    intro c h
    rw [lstripWs, List.dropWhile_cons] at h
    split at h
    · exact ih h
    · rename_i hpa
      rw [List.head?_cons] at h
      cases h
      simpa using hpa

theorem rstripWs_head?_eq : ∀ {l : Str} {c : Char},
    (rstripWs l).head? = some c → l.head? = some c := by
  intro l
  induction l with
  | nil => intro c h; cases h
  | cons a t _ =>
    intro c h
    rw [rstripWs_cons] at h
    split at h
    · split at h
      · cases h
      · rw [List.head?_cons] at h ⊢; exact h
    · rw [List.head?_cons] at h ⊢; exact h

theorem rstripWs_getLast_not_space : ∀ {l : Str} {c : Char},
    (rstripWs l).getLast? = some c → pySpace c = false := by
  intro l
  induction l with
  | nil => intro c h; cases h
  | cons a t ih =>
    intro c h
    rw [rstripWs_cons] at h
    split at h
    · split at h
      · cases h
      · rename_i hpa
        rw [List.getLast?_singleton] at h
        cases h
        simpa using hpa
    · rename_i hne
      cases hr : rstripWs t with
      | nil => exact absurd hr hne
      | cons b t' =>
        rw [hr, List.getLast?_cons_cons] at h
        exact ih (by rw [hr]; exact h)

theorem isStripped_pyStrip (l : Str) : IsStripped (pyStrip l) :=
  ⟨fun _ h => lstripWs_head_not_space (rstripWs_head?_eq h),
   fun _ h => rstripWs_getLast_not_space h⟩

theorem lstripWs_cons_of_not_space {c : Char} (hc : pySpace c = false)
    (t : Str) : lstripWs (c :: t) = c :: t := by
  rw [lstripWs, List.dropWhile_cons, if_neg (by simp [hc])]

theorem lstripWs_eq_self {l : Str}
    (h : ∀ c, l.head? = some c → pySpace c = false) : lstripWs l = l := by
  cases l with
  | nil => rfl
  | cons a t => exact lstripWs_cons_of_not_space (h a rfl) t

theorem rstripWs_eq_self : ∀ {l : Str},
    (∀ c, l.getLast? = some c → pySpace c = false) → rstripWs l = l := by
  intro l
  induction l with
  | nil => intro _; rfl
  | cons a t ih =>
    intro h
    cases t with
    | nil =>
      have hpa := h a (by simp)
      rw [rstripWs_cons]
      simp [hpa, rstripWs]
    | cons b t' =>
      have ht : rstripWs (b :: t') = b :: t' :=
        ih (fun c hc => h c (by rw [List.getLast?_cons_cons]; exact hc))
      rw [rstripWs_cons, ht, if_neg (by simp)]

theorem pyStrip_eq_self {l : Str} (h : IsStripped l) : pyStrip l = l := by
  unfold pyStrip
  rw [lstripWs_eq_self h.1, rstripWs_eq_self h.2]

theorem pyStrip_idem (l : Str) : pyStrip (pyStrip l) = pyStrip l :=
  pyStrip_eq_self (isStripped_pyStrip l)

theorem rstripWs_cons_ne_nil {c : Char} (hc : pySpace c = false) (l : Str) :
    rstripWs (c :: l) ≠ [] := by
  rw [rstripWs_cons]
  split
  · simp [hc]
  · simp

theorem rstripWs_append (a : Str) {b : Str} (hb : rstripWs b ≠ []) :
    rstripWs (a ++ b) = a ++ rstripWs b := by
  induction a with
  | nil => simp
  | cons x xs ih =>
    rw [List.cons_append, rstripWs_cons, ih,
      if_neg (by simp [List.append_eq_nil, hb]), List.cons_append]

theorem splitNl_ne_nil : ∀ l : Str, splitNl l ≠ [] := by
  intro l
  induction l with
  | nil => simp [splitNl]
  | cons c rest ih =>
    rw [splitNl]
    split
    · simp
    · cases hs : splitNl rest with
      | nil => exact absurd hs ih
      | cons x xs => simp

theorem splitNl_nl (rest : Str) : splitNl ('\n' :: rest) = [] :: splitNl rest := by
  rw [splitNl, if_pos rfl]

theorem splitNl_cons_not_nl {c : Char} (hc : ¬c = '\n') {rest : Str}
    {l : Str} {ls : List Str} (h : splitNl rest = l :: ls) :
    splitNl (c :: rest) = (c :: l) :: ls := by
  rw [splitNl, if_neg hc, h]

theorem splitNl_no_nl : ∀ {t : Str}, ∀ l ∈ splitNl t, '\n' ∉ l := by
  intro t
  induction t with
  | nil =>
    intro l hl
    rw [show splitNl [] = [[]] from rfl, List.mem_singleton] at hl
    subst hl
    simp
  | cons c rest ih =>
    intro l hl
    by_cases hc : c = '\n'
    · subst hc
      rw [splitNl_nl] at hl
      rcases List.mem_cons.mp hl with rfl | h2
      · simp
      · exact ih l h2
    · obtain ⟨x, xs, hx⟩ : ∃ x xs, splitNl rest = x :: xs := by
        cases hs : splitNl rest with
        | nil => exact absurd hs (splitNl_ne_nil rest)
        | cons x xs => exact ⟨x, xs, rfl⟩
      rw [splitNl_cons_not_nl hc hx] at hl
      rcases List.mem_cons.mp hl with rfl | h2
      · have hx' : '\n' ∉ x := ih x (by rw [hx]; exact List.mem_cons_self x xs)
        intro hmem
        rcases List.mem_cons.mp hmem with h | h
        · exact hc h.symm
        · exact hx' h
      · exact ih l (by rw [hx]; exact List.mem_cons_of_mem x h2)

theorem splitNl_of_no_nl : ∀ {a : Str}, '\n' ∉ a → splitNl a = [a] := by
  intro a
  induction a with
  | nil => intro _; rfl
  | cons c rest ih =>
    intro h
    have hc : ¬c = '\n' := fun hcc => h (by rw [hcc]; exact List.mem_cons_self _ _)
    have hrest : '\n' ∉ rest := fun hr => h (List.mem_cons_of_mem c hr)
    rw [splitNl_cons_not_nl hc (ih hrest)]

theorem splitNl_append_nl (b : Str) : ∀ a : Str, '\n' ∉ a →
    splitNl (a ++ '\n' :: b) = a :: splitNl b := by
  intro a
  induction a with
  | nil =>
    intro _
    rw [List.nil_append, splitNl_nl]
  | cons c rest ih =>
    intro ha
    have hc : ¬c = '\n' := fun hcc => ha (by rw [hcc]; exact List.mem_cons_self _ _)
    have hrest : '\n' ∉ rest := fun hr => ha (List.mem_cons_of_mem c hr)
    obtain ⟨x, xs, hx⟩ : ∃ x xs, splitNl (rest ++ '\n' :: b) = x :: xs :=
      ⟨rest, splitNl b, ih hrest⟩
    rw [List.cons_append, splitNl_cons_not_nl hc hx]
    have := ih hrest
    rw [hx] at this
    cases this
    rfl

/-! ### C8: serialization computation -/

theorem chars_dash_space : chars "- " = ['-', ' '] := rfl

theorem serializeBullets_single (i : Str) :
    serializeBullets [i] = chars "- " ++ i := rfl

theorem serializeBullets_pair (i j : Str) (rest : List Str) :
    serializeBullets (i :: j :: rest) =
      (chars "- " ++ i) ++ '\n' :: serializeBullets (j :: rest) := rfl

theorem serializeStripped_single (i : Str) :
    serializeStripped [i] = rstripWs (chars "- " ++ i) := rfl

theorem serializeStripped_pair (i j : Str) (rest : List Str) :
    serializeStripped (i :: j :: rest) =
      (chars "- " ++ i) ++ '\n' :: serializeStripped (j :: rest) := rfl

theorem serializeBullets_head (i : Str) (rest : List Str) :
    ∃ t, serializeBullets (i :: rest) = '-' :: ' ' :: t := by
  cases rest with
  | nil => exact ⟨i, rfl⟩
  | cons j rest' => exact ⟨i ++ '\n' :: serializeBullets (j :: rest'), rfl⟩

theorem rstripWs_serializeBullets : ∀ (items : List Str), items ≠ [] →
    rstripWs (serializeBullets items) = serializeStripped items := by
  intro items
  induction items with
  | nil => exact fun h => absurd rfl h
  | cons i rest ih =>
    intro _
    cases rest with
    | nil => rfl
    | cons j rest' =>
      rw [serializeBullets_pair, serializeStripped_pair]
      have hni : rstripWs (serializeBullets (j :: rest')) ≠ [] := by
        obtain ⟨t, ht⟩ := serializeBullets_head j rest'
        rw [ht]
        exact rstripWs_cons_ne_nil (by decide) _
      have hb : rstripWs ('\n' :: serializeBullets (j :: rest')) =
          '\n' :: rstripWs (serializeBullets (j :: rest')) := by
        rw [rstripWs_cons, if_neg hni]
      rw [rstripWs_append _ (by rw [hb]; simp), hb, ih (by simp)]

theorem pyStrip_serializeBullets (items : List Str) (h : items ≠ []) :
    pyStrip (serializeBullets items) = serializeStripped items := by
  unfold pyStrip
  cases items with
  | nil => exact absurd rfl h
  | cons i rest =>
    obtain ⟨t, ht⟩ := serializeBullets_head i rest
    rw [ht, lstripWs_cons_of_not_space (by decide), ← ht,
      rstripWs_serializeBullets _ (by simp)]

/-! ### C8: processing one serialized bullet line -/

theorem pyStrip_bulletLine (i : Str) (hi : IsStripped i) :
    pyStrip (chars "- " ++ i) =
      if i = [] then ['-'] else '-' :: ' ' :: i := by
  by_cases hnil : i = []
  · subst hnil
    simp only [if_pos rfl]
    decide
  · rw [if_neg hnil]
    unfold pyStrip
    rw [chars_dash_space,
      show (['-', ' '] ++ i : Str) = '-' :: ' ' :: i from rfl,
      lstripWs_cons_of_not_space (by decide)]
    have hrs : rstripWs i = i := rstripWs_eq_self hi.2
    have hne : rstripWs i ≠ [] := by rw [hrs]; exact hnil
    rw [show ('-' :: ' ' :: i : Str) = ['-', ' '] ++ i from rfl,
      rstripWs_append _ hne, hrs]

theorem lstripWs_space_cons (i : Str) : lstripWs (' ' :: i) = lstripWs i := by
  rw [lstripWs, lstripWs, List.dropWhile_cons, if_pos (by decide)]

theorem bullet_extract (i : Str) (hi : IsStripped i) :
    pyStrip (lstripSet bulletSet (pyStrip (chars "- " ++ i))) = i := by
  rw [pyStrip_bulletLine i hi]
  by_cases hnil : i = []
  · subst hnil
    simp only [if_pos rfl]
    decide
  · rw [if_neg hnil]
    have h1 : lstripSet bulletSet ('-' :: ' ' :: i) = ' ' :: i := by
      unfold lstripSet
      rw [List.dropWhile_cons, if_pos (by decide),
        List.dropWhile_cons, if_neg (by decide)]
    rw [h1]
    unfold pyStrip
    rw [lstripWs_space_cons, lstripWs_eq_self hi.1, rstripWs_eq_self hi.2]

theorem runLines_cons_some {l : Str} {ls : List Str} {st st1 : PState}
    (h : processLine st l = some st1) :
    runLines (l :: ls) st = runLines ls st1 := by
  simp [runLines, h]

theorem processLine_congr {raw1 raw2 : Str} (h : pyStrip raw1 = pyStrip raw2)
    (st : PState) : processLine st raw1 = processLine st raw2 := by
  unfold processLine
  rw [h]

theorem pyStrip_rstrip_bulletLine (i : Str) (hi : IsStripped i) :
    pyStrip (rstripWs (chars "- " ++ i)) = pyStrip (chars "- " ++ i) := by
  by_cases hnil : i = []
  · subst hnil
    decide
  · have hrs : rstripWs i = i := rstripWs_eq_self hi.2
    have hne : rstripWs i ≠ [] := by rw [hrs]; exact hnil
    rw [show (chars "- " ++ i : Str) = ['-', ' '] ++ i from rfl,
      rstripWs_append _ hne, hrs]

theorem nl_not_mem_bulletLine {i : Str} (hi : '\n' ∉ i) :
    '\n' ∉ (chars "- " ++ i : Str) := by
  rw [show (chars "- " ++ i : Str) = '-' :: ' ' :: i from rfl]
  intro hmem
  rcases List.mem_cons.mp hmem with h | h
  · exact absurd h (by decide)
  · rcases List.mem_cons.mp h with h | h
    · exact absurd h (by decide)
    · exact hi h

theorem processLine_bullet_none (slides : List Slide) (i : Str)
    (hi : IsStripped i) :
    processLine (slides, none) (chars "- " ++ i) =
      some (slides, some
        { type := SKind.content, title := chars "Content",
          subtitle := none, content := some [i] }) := by
  have hex := bullet_extract i hi
  by_cases hnil : i = []
  · subst hnil
    have hL : pyStrip (chars "- ") = ['-'] := by decide
    have hexL : pyStrip (lstripSet bulletSet ['-']) = [] := by decide
    have d1 : startsWithL ['-'] (chars "# ") = false := rfl
    have d2 : startsWithL ['-'] (chars "## ") = false := rfl
    have d3 : startsWithL ['-'] (chars "---") = false := rfl
    have d4 : startsWithL ['-'] (chars "-") = true := rfl
    simp [processLine, hL, hexL, d1, d2, d3, d4, defaultContent]
  · have hL : pyStrip (chars "- " ++ i) = '-' :: ' ' :: i := by
      rw [pyStrip_bulletLine i hi, if_neg hnil]
    rw [hL] at hex
    have c2 : startsWithL ('-' :: ' ' :: i) (chars "# ") = false := rfl
    have c2b : startsWithL ('-' :: ' ' :: i) (chars "## ") = false := rfl
    have c3 : startsWithL ('-' :: ' ' :: i) (chars "---") = false := rfl
    have c4 : startsWithL ('-' :: ' ' :: i) (chars "-") = true := rfl
    simp [processLine, hL, hex, c2, c2b, c3, c4, defaultContent]

theorem processLine_bullet_content (slides : List Slide) (title : Str)
    (sub : Option Str) (items : List Str) (i : Str) (hi : IsStripped i) :
    processLine
        (slides, some
          { type := SKind.content, title := title,
            subtitle := sub, content := some items })
        (chars "- " ++ i) =
      some (slides, some
        { type := SKind.content, title := title,
          subtitle := sub, content := some (items ++ [i]) }) := by
  have hex := bullet_extract i hi
  by_cases hnil : i = []
  · subst hnil
    have hL : pyStrip (chars "- ") = ['-'] := by decide
    have hexL : pyStrip (lstripSet bulletSet ['-']) = [] := by decide
    have d1 : startsWithL ['-'] (chars "# ") = false := rfl
    have d2 : startsWithL ['-'] (chars "## ") = false := rfl
    have d3 : startsWithL ['-'] (chars "---") = false := rfl
    have d4 : startsWithL ['-'] (chars "-") = true := rfl
    simp [processLine, hL, hexL, d1, d2, d3, d4]
  · have hL : pyStrip (chars "- " ++ i) = '-' :: ' ' :: i := by
      rw [pyStrip_bulletLine i hi, if_neg hnil]
    rw [hL] at hex
    have c2 : startsWithL ('-' :: ' ' :: i) (chars "# ") = false := rfl
    have c2b : startsWithL ('-' :: ' ' :: i) (chars "## ") = false := rfl
    have c3 : startsWithL ('-' :: ' ' :: i) (chars "---") = false := rfl
    have c4 : startsWithL ('-' :: ' ' :: i) (chars "-") = true := rfl
    simp [processLine, hL, hex, c2, c2b, c3, c4]

theorem runLines_serializeStripped : ∀ (items : List Str), items ≠ [] →
    (∀ i ∈ items, GoodItem i) →
    ∀ (slides : List Slide) (title : Str) (sub : Option Str) (acc : List Str),
      runLines (splitNl (serializeStripped items))
          (slides, some
            { type := SKind.content, title := title,
              subtitle := sub, content := some acc }) =
        some (slides, some
          { type := SKind.content, title := title,
            subtitle := sub, content := some (acc ++ items) }) := by
  intro items
  induction items with
  | nil => exact fun h => absurd rfl h
  | cons i rest ih =>
    intro _ hg slides title sub acc
    have hi : GoodItem i := hg i (List.mem_cons_self ..)
    cases rest with
    | nil =>
      have hnl : '\n' ∉ rstripWs (chars "- " ++ i) := fun hmem =>
        nl_not_mem_bulletLine hi.2 (mem_of_mem_rstripWs hmem)
      rw [serializeStripped_single, splitNl_of_no_nl hnl]
      have hp : processLine
          (slides, some
            { type := SKind.content, title := title,
              subtitle := sub, content := some acc })
          (rstripWs (chars "- " ++ i)) =
          some (slides, some
            { type := SKind.content, title := title,
              subtitle := sub, content := some (acc ++ [i]) }) := by
        rw [processLine_congr (pyStrip_rstrip_bulletLine i hi.1)]
        exact processLine_bullet_content slides title sub acc i hi.1
      simp [runLines, hp]
    | cons j rest' =>
      rw [serializeStripped_pair,
        splitNl_append_nl _ _ (nl_not_mem_bulletLine hi.2)]
      rw [runLines_cons_some (processLine_bullet_content slides title sub acc i hi.1)]
      rw [ih (by simp) (fun x hx => hg x (List.mem_cons_of_mem _ hx))
        slides title sub (acc ++ [i])]
      simp

/-- Reparsing a serialized list of good items yields exactly one Content
record titled "Content" holding that list; shared core of C8. -/
theorem reparse_good (items : List Str) (hne : items ≠ [])
    (hg : ∀ i ∈ items, GoodItem i) :
    parse_text [] (serializeBullets items) =
      some
        [{ type := SKind.content, title := chars "Content",
           subtitle := none, content := some items }] := by
  unfold parse_text
  rw [pyStrip_serializeBullets items hne]
  cases items with
  | nil => exact absurd rfl hne
  | cons i rest =>
    have hi : GoodItem i := hg i (List.mem_cons_self ..)
    cases rest with
    | nil =>
      have hnl : '\n' ∉ rstripWs (chars "- " ++ i) := fun hmem =>
        nl_not_mem_bulletLine hi.2 (mem_of_mem_rstripWs hmem)
      rw [serializeStripped_single, splitNl_of_no_nl hnl]
      have hp : processLine ([], none) (rstripWs (chars "- " ++ i)) =
          some ([], some
            { type := SKind.content, title := chars "Content",
              subtitle := none, content := some [i] }) := by
        rw [processLine_congr (pyStrip_rstrip_bulletLine i hi.1)]
        exact processLine_bullet_none [] i hi.1
      simp [runLines, hp, pushCur]
    | cons j rest' =>
      rw [serializeStripped_pair,
        splitNl_append_nl _ _ (nl_not_mem_bulletLine hi.2)]
      rw [runLines_cons_some (processLine_bullet_none [] i hi.1)]
      rw [runLines_serializeStripped (j :: rest') (by simp)
        (fun x hx => hg x (List.mem_cons_of_mem _ hx))
        [] (chars "Content") none [i]]
      simp [pushCur]

/-! ### C8: every content record the parser emits has good items -/

theorem processLine_good (slides : List Slide) (cur : Option Slide)
    (raw : Str) (hg1 : ∀ s ∈ slides, GoodSlide s)
    (hg2 : ∀ s, cur = some s → GoodSlide s) (hnl : '\n' ∉ raw)
    (st' : PState) (h : processLine (slides, cur) raw = some st') :
    (∀ s ∈ st'.1, GoodSlide s) ∧ (∀ s, st'.2 = some s → GoodSlide s) := by
  have hpush : ∀ s ∈ pushCur slides cur, GoodSlide s := by
    intro s hs
    cases cur with
    | none => exact hg1 s hs
    | some c =>
      rcases List.mem_append.mp hs with h1 | h1
      · exact hg1 s h1
      · rw [List.mem_singleton] at h1
        exact h1 ▸ hg2 c rfl
  have hbg : GoodItem (pyStrip (lstripSet bulletSet (pyStrip raw))) :=
    ⟨isStripped_pyStrip _, fun hm =>
      hnl (mem_of_mem_pyStrip (mem_of_mem_dropWhile (mem_of_mem_pyStrip hm)))⟩
  have hlg : GoodItem (pyStrip raw) :=
    ⟨isStripped_pyStrip _, fun hm => hnl (mem_of_mem_pyStrip hm)⟩
  by_cases c1 : (pyStrip raw).isEmpty = true
  · simp only [processLine, c1, if_pos, Option.some.injEq] at h
    subst h
    exact ⟨hg1, hg2⟩
  · by_cases c2 : (startsWithL (pyStrip raw) (chars "# ") ||
        startsWithL (pyStrip raw) (chars "## ")) = true
    · simp only [processLine, c1, c2, if_pos, if_neg, Bool.false_eq_true,
        not_false_eq_true, Option.some.injEq] at h
      subst h
      refine ⟨hpush, ?_⟩
      intro s hs
      cases hs
      intro hty
      exact absurd hty (by simp)
    · by_cases c3 : (startsWithL (pyStrip raw) (chars "---") ||
          (startsWithL (pyStrip raw) (chars "## ") &&
            containsSub (chars "section")
              ((pyStrip raw).map Char.toLower))) = true
      · simp only [processLine] at h
        rw [if_neg (by simp [c1]), if_neg (by simp [c2]),
          if_pos (by simp [c3])] at h
        simp only [Option.some.injEq] at h
        subst h
        refine ⟨hpush, ?_⟩
        intro s hs
        cases hs
        intro hty
        exact absurd hty (by simp)
      · by_cases c4 : (startsWithL (pyStrip raw) (chars "-") ||
            startsWithL (pyStrip raw) mojibake) = true
        · cases cur with
          | none =>
            simp only [processLine, defaultContent] at h
            rw [if_neg (by simp [c1]), if_neg (by simp [c2]),
              if_neg (by simp [c3]), if_pos (by simp [c4])] at h
            simp only [if_true, Option.some.injEq] at h
            subst h
            refine ⟨by simpa using hg1, ?_⟩
            intro s hs
            simp only [Option.some.injEq] at hs
            subst hs
            intro _
            exact ⟨[pyStrip (lstripSet bulletSet (pyStrip raw))],
              by simp, by simp, by simpa using hbg⟩
          | some c =>
            by_cases hty : c.type = SKind.content
            · obtain ⟨items, hits, hne, hgi⟩ := hg2 c rfl hty
              simp only [processLine] at h
              rw [if_neg (by simp [c1]), if_neg (by simp [c2]),
                if_neg (by simp [c3]), if_pos (by simp [c4])] at h
              rw [if_pos hty, hits] at h
              simp only [Option.some.injEq] at h
              subst h
              refine ⟨hg1, ?_⟩
              intro s hs
              simp only [Option.some.injEq] at hs
              subst hs
              intro _
              refine ⟨items ++ [pyStrip (lstripSet bulletSet (pyStrip raw))],
                by simp, by simp, ?_⟩
              intro x hx
              rcases List.mem_append.mp hx with h1 | h1
              · exact hgi x h1
              · rw [List.mem_singleton] at h1
                exact h1 ▸ hbg
            · simp only [processLine] at h
              rw [if_neg (by simp [c1]), if_neg (by simp [c2]),
                if_neg (by simp [c3]), if_pos (by simp [c4]),
                if_neg hty] at h
              simp only [Option.some.injEq] at h
              subst h
              refine ⟨hg1, ?_⟩
              intro s hs
              simp only [Option.some.injEq] at hs
              subst hs
              intro _
              exact ⟨[pyStrip (lstripSet bulletSet (pyStrip raw))],
                by simp, by simp, by simpa using hbg⟩
        · cases cur with
          | none =>
            simp only [processLine] at h
            rw [if_neg (by simp [c1]), if_neg (by simp [c2]),
              if_neg (by simp [c3]), if_neg (by simp [c4])] at h
            simp only [Option.some.injEq] at h
            subst h
            exact ⟨hg1, by intro s hs; cases hs⟩
          | some c =>
            simp only [processLine] at h
            rw [if_neg (by simp [c1]), if_neg (by simp [c2]),
              if_neg (by simp [c3]), if_neg (by simp [c4])] at h
            by_cases hty : c.type = SKind.title
            · rw [if_pos hty] at h
              split at h
              · exact absurd h (by simp)
              · split at h
                · simp only [Option.some.injEq] at h
                  subst h
                  refine ⟨hg1, ?_⟩
                  intro s hs
                  simp only [Option.some.injEq] at hs
                  subst hs
                  intro hc2
                  obtain ⟨items, hits, hne, hgi⟩ := hg2 c rfl (by simpa using hc2)
                  exact ⟨items, by simpa using hits, hne, hgi⟩
                · simp only [Option.some.injEq] at h
                  subst h
                  refine ⟨hg1, ?_⟩
                  intro s hs
                  simp only [Option.some.injEq] at hs
                  subst hs
                  exact hg2 c rfl
            · rw [if_neg hty] at h
              by_cases htc : c.type = SKind.content
              · obtain ⟨items, hits, hne, hgi⟩ := hg2 c rfl htc
                rw [if_pos htc] at h
                split at h
                · exact absurd h (by simp)
                · rename_i items2 hits2
                  rw [hits] at hits2
                  cases hits2
                  simp only [Option.some.injEq] at h
                  subst h
                  refine ⟨hg1, ?_⟩
                  intro s hs
                  simp only [Option.some.injEq] at hs
                  subst hs
                  intro _
                  refine ⟨items ++ [pyStrip raw], by simp, by simp, ?_⟩
                  intro x hx
                  rcases List.mem_append.mp hx with h1 | h1
                  · exact hgi x h1
                  · rw [List.mem_singleton] at h1
                    exact h1 ▸ hlg
              · rw [if_neg htc] at h
                simp only [Option.some.injEq] at h
                subst h
                refine ⟨hg1, ?_⟩
                intro s hs
                simp only [Option.some.injEq] at hs
                subst hs
                exact hg2 c rfl

theorem runLines_good : ∀ (lines : List Str), (∀ l ∈ lines, '\n' ∉ l) →
    ∀ st : PState, (∀ s ∈ st.1, GoodSlide s) →
      (∀ s, st.2 = some s → GoodSlide s) →
      ∀ st', runLines lines st = some st' →
        (∀ s ∈ st'.1, GoodSlide s) ∧ (∀ s, st'.2 = some s → GoodSlide s) := by
  intro lines
  induction lines with
  | nil =>
    intro _ st hg1 hg2 st' h
    cases h
    exact ⟨hg1, hg2⟩
  | cons l ls ih =>
    intro hnl st hg1 hg2 st' h
    cases hp : processLine st l with
    | none => rw [runLines, hp] at h; cases h
    | some st1 =>
      rw [runLines_cons_some hp] at h
      obtain ⟨hA, hB⟩ := processLine_good st.1 st.2 l hg1 hg2
        (hnl l (List.mem_cons_self ..)) st1 hp
      exact ih (fun x hx => hnl x (List.mem_cons_of_mem l hx)) st1 hA hB st' h

theorem parse_good (text : Str) (out : List Slide)
    (h : parse_text [] text = some out) : ∀ s ∈ out, GoodSlide s := by
  unfold parse_text at h
  cases hr : runLines (splitNl (pyStrip text)) ([], none) with
  | none => rw [hr] at h; cases h
  | some st =>
    rw [hr] at h
    obtain ⟨s1, cur1⟩ := st
    obtain ⟨hA, hB⟩ := runLines_good (splitNl (pyStrip text))
      (fun l hl => splitNl_no_nl l hl) ([], none) (by simp)
      (by intro s hs; cases hs) (s1, cur1) hr
    cases h
    intro s hs
    cases cur1 with
    | none => exact hA s hs
    | some c =>
      rcases List.mem_append.mp hs with h1 | h1
      · exact hA s h1
      · rw [List.mem_singleton] at h1
        exact h1 ▸ hB c rfl

/-- C8: for every Content record a fresh parser produces, serializing its
bullet items back into `"- item"` lines and re-parsing yields exactly one
Content record whose bullet list equals the original one. -/
theorem parse_roundtrip (text : Str) (out : List Slide) (s : Slide)
    (hp : parse_text [] text = some out) (hs : s ∈ out)
    (hc : s.type = SKind.content) :
    ∃ items, s.content = some items ∧
      parse_text [] (serializeBullets items) =
        some
          [{ type := SKind.content, title := chars "Content",
             subtitle := none, content := some items }] := by
  obtain ⟨items, hci, hne, hg⟩ := parse_good text out hp s hs hc
  exact ⟨items, hci, reparse_good items hne hg⟩

/-- C8 witness: the parse of `"- a\n- b"` round-trips. -/
theorem parse_roundtrip_witness :
    ∃ items,
      (Slide.mk SKind.content (chars "Content") none
        (some [chars "a", chars "b"])).content = some items ∧
      parse_text [] (serializeBullets items) =
        some
          [{ type := SKind.content, title := chars "Content",
             subtitle := none, content := some items }] :=
  parse_roundtrip (chars "- a\n- b")
    [Slide.mk SKind.content (chars "Content") none
      (some [chars "a", chars "b"])]
    (Slide.mk SKind.content (chars "Content") none
      (some [chars "a", chars "b"]))
    (by decide) (by decide) rfl
